import Mathlib

/-!
Verification of the chess cheater-detector pipeline (src/main.py).

The repository analyzes the archived games of a chess player: it replays
each game, asks a Stockfish engine for its preferred move, compares it with
the move actually played, and aggregates the per-game match rates into a
heuristic suspicion score.

This file embeds the core of `src/main.py` shallowly:

* the chess library and the engine are external collaborators; a board is
  modelled by its move history (moves alternate, white first, exactly as
  `python-chess` exposes through `board.turn`), and the engine is an
  abstract oracle from positions to an optional best move
  (`stockfish.set_fen_position` followed by `stockfish.get_best_move`);
* Python float arithmetic is modelled by exact rational arithmetic; the
  two-decimal rounding of line 67 is modelled by rounding to the nearest
  multiple of 1/100 (tie behaviour is immaterial to every claim proved);
* the process pool of lines 126-133 is modelled by its observable effect:
  each submitted unit either yields a result or fails, and the collector
  keeps exactly the successful ones.
-/

namespace ChessDetector

/-- One side entry of a raw chess.com game record: the fields
`game["white"]` / `game["black"]` with their `username` and `result`. -/
structure SideInfo where
  username : String
  result : String
deriving DecidableEq, Repr

/-- A raw game record as delivered by the archive service. `white` and
`black` are `Option` because a record may lack either key (line 118 tests
`"white" in game and "black" in game`); `pgn` is `Option` because the
record may lack move text (line 50 uses `game.get("pgn", "")`). -/
structure RawGame where
  white : Option SideInfo
  black : Option SideInfo
  pgn : Option String
  url : String
deriving DecidableEq, Repr

/-- A board is modelled by the list of UCI moves pushed so far, starting
from the initial position, exactly the information `chess.pgn` replay
carries that the code observes (`board.turn`, `board.fen()`). -/
abbrev Board := List String

/-- `chess.WHITE` is the Python constant `True`. -/
def chessWHITE : Bool := true

/-- `chess.BLACK` is the Python constant `False`. -/
def chessBLACK : Bool := false

/-- `board.turn`: side to move. From the initial position white moves
first and the sides alternate, so white is to move exactly when an even
number of moves has been pushed. -/
def Board.turn (b : Board) : Bool := b.length % 2 == 0

/-- The engine as seen through its narrow interface: from a position
(determined by the pushed move history, line 62 `board.fen()`) to the
optional best move string returned by `get_best_move` (line 63); `none`
models the `None` that Stockfish returns on a final position. -/
abbrev EngineOracle := Board → Option String

/-- The PGN reading interface of `chess.pgn.read_game` (line 55), reduced
to what the loop consumes: the mainline move list in UCI form; `none`
models a record whose move text cannot be parsed into a game. -/
abbrev PgnReader := String → Option (List String)

/-- The loop state of lines 56-65: the board, the two counters
`total_moves` and `best_moves`, and (for observability) the list of the
positions at which the engine was actually queried. -/
structure CompState where
  board : Board
  total : Nat
  best : Nat
  queried : List Board
deriving DecidableEq, Repr

/-- The initial loop state: initial board, both counters zero, no engine
query performed yet. -/
def initComp : CompState := ⟨[], 0, 0, []⟩

/-- One iteration of the loop of lines 57-65, translated clause by
clause: push the move, increment `total_moves`, `continue` when the side
to move of the *pushed* board is the opponent of `user_color` (line 60),
otherwise query the engine at the pushed board and increment `best_moves`
when the reply equals the just-pushed move (lines 62-65). -/
def compStep (oracle : EngineOracle) (user_color : String)
    (s : CompState) (move : String) : CompState :=
  let board := s.board ++ [move]
  let total := s.total + 1
  if (user_color == "white" && Board.turn board == chessBLACK)
      || (user_color == "black" && Board.turn board == chessWHITE) then
    { s with board := board, total := total }
  else
    let best := oracle board
    if best == some move then
      { board := board, total := total, best := s.best + 1,
        queried := s.queried ++ [board] }
    else
      { board := board, total := total, best := s.best,
        queried := s.queried ++ [board] }

/-- The whole replay loop of lines 56-65 over the mainline move list. -/
def runComparator (oracle : EngineOracle) (user_color : String)
    (moves : List String) : CompState :=
  moves.foldl (compStep oracle user_color) initComp

/-- Two-decimal rounding of line 67 (`round(x, 2)`), modelled over ℚ as
rounding to the nearest multiple of 1/100. -/
def round2 (q : ℚ) : ℚ := (round (q * 100) : ℚ) / 100

/-- Line 67: `round((best_moves / total_moves) * 100, 2) if total_moves
else 0`. -/
def precisaoOf (best_moves total_moves : Nat) : ℚ :=
  if total_moves ≠ 0 then round2 ((best_moves : ℚ) / (total_moves : ℚ) * 100)
  else 0

/-- Line 46: the opponent handle. -/
def opponentOf (w b : SideInfo) (username : String) : String :=
  if b.username == username then w.username else b.username

/-- Line 47: the result attributed to the target player. -/
def resultOf (w b : SideInfo) (username : String) : String :=
  if w.username == username then w.result else b.result

/-- Line 48: the colour attributed to the target player. -/
def userColorOf (w b : SideInfo) (username : String) : String :=
  if w.username == username then "white" else "black"

/-- The per-game result dictionary of lines 69-74. -/
structure GameResult where
  oponente : String
  resultado : String
  precisao : ℚ
  url : String
deriving DecidableEq, Repr

/-- `analyze_game_process_safe` (lines 42-74). A `none` outcome models an
exception escaping the worker function: a record without one of the side
keys (`KeyError` at lines 46-48) or move text that `read_game` cannot
turn into a game (`AttributeError` at line 56). -/
def analyze_game_process_safe (oracle : EngineOracle) (reader : PgnReader)
    (game : RawGame) (username : String) : Option GameResult := do
  let w ← game.white
  let b ← game.black
  let opponent := opponentOf w b username
  let result := resultOf w b username
  let user_color := userColorOf w b username
  let pgn_text := game.pgn.getD ""
  let s ←
    if pgn_text ≠ "" then
      match reader pgn_text with
      | none => none
      | some moves => some (runComparator oracle user_color moves)
    else
      some initComp
  some { oponente := opponent, resultado := result,
         precisao := precisaoOf s.best s.total, url := game.url }

/-- Line 44 runs unconditionally at the start of every invocation of
`analyze_game_process_safe` and constructs one fresh Stockfish engine
session; nothing else in the worker constructs or caches one. -/
def sessionsPerCall (_game : RawGame) : Nat := 1

/-- Engine sessions constructed while a pool worker processes its list of
assigned units: one invocation of `analyze_game_process_safe`, hence one
execution of line 44, per unit. -/
def workerSessions (units : List RawGame) : Nat :=
  (units.map sessionsPerCall).sum

/-- Line 118: `"white" in game and "black" in game`. -/
def hasBothSides (g : RawGame) : Bool := g.white.isSome && g.black.isSome

/-- Python `str.lower()`, embedded character by character (the handles in
play are ASCII; `String.toLower` in Lean is the same map but is defined by
well-founded recursion, which blocks kernel evaluation). -/
def lowerStr (s : String) : String := String.mk (s.data.map Char.toLower)

/-- Lines 119-120: both side entries present and
`username.lower() in [white.username.lower(), black.username.lower()]`. -/
def matchesUser (username : String) (g : RawGame) : Bool :=
  match g.white, g.black with
  | some w, some b =>
      lowerStr username == lowerStr w.username
        || lowerStr username == lowerStr b.username
  | _, _ => false

/-- The inner selection loop of lines 115-121 over one fetched archive:
stop as soon as `max_partidas` units are accumulated, append a game when
both side keys are present and the target handle matches one of them
case-insensitively; otherwise skip it. -/
def selectFromGames (username : String) (max_partidas : Nat)
    (games : List RawGame) (partidas : List RawGame) : List RawGame :=
  match games with
  | [] => partidas
  | g :: rest =>
      if partidas.length ≥ max_partidas then partidas
      else if hasBothSides g && matchesUser username g then
        selectFromGames username max_partidas rest (partidas ++ [g])
      else
        selectFromGames username max_partidas rest partidas

/-- The outer loop of lines 113-123: archives are visited in the order
given (the caller passes the reversed archive list, line 113), fetching
is folded into the input (each element is the game list of one archive),
and the loop breaks once the cap is reached (lines 122-123). -/
def selectFromArchives (username : String) (max_partidas : Nat)
    (archiveGames : List (List RawGame)) (partidas : List RawGame) :
    List RawGame :=
  match archiveGames with
  | [] => partidas
  | games :: rest =>
      let partidas := selectFromGames username max_partidas games partidas
      if partidas.length ≥ max_partidas then partidas
      else selectFromArchives username max_partidas rest partidas

/-- The suspicion score computed at lines 78-96 (exact rational
arithmetic in place of Python floats): defined for a non-empty batch; the
`total = 0` guard of lines 79-80 returns before this expression is
evaluated. -/
def scoreOf (jogos : List GameResult) : ℚ :=
  let total : ℚ := jogos.length
  let vitorias : ℚ := (jogos.filter (fun j => j.resultado == "win")).length
  let media_precisao : ℚ := (jogos.map (fun j => j.precisao)).sum / total
  let partidas_precisas : ℚ :=
    (jogos.filter (fun j => decide (j.precisao > 90))).length
  let vitorias_pct := vitorias / total
  let precisao_alta_pct := partidas_precisas / total
  ((media_precisao / 100) * 0.5 + vitorias_pct * 0.3
    + precisao_alta_pct * 0.2) * 100

/-- `avaliar_suspeita` (lines 77-99): `False` on an empty list, otherwise
the comparison `score >= 75` of line 99. -/
def avaliar_suspeita (jogos : List GameResult) : Bool :=
  if jogos.length == 0 then false
  else decide (scoreOf jogos ≥ 75)

/-- The result collection of lines 129-133: every future either produced
a result (`some`) or raised (`none`, caught and logged); the collector
appends exactly the successful ones and swallows the failures. -/
def collect_results (outcomes : List (Option GameResult)) : List GameResult :=
  outcomes.filterMap id

/-- The two shapes the endpoint can return (lines 108, 136, 140-145). -/
inductive Response where
  | erro (msg : String)
  | ok (usuario : String) (jogos_analisados : Nat)
      (detalhes : List GameResult) (suspeito : Bool)
deriving DecidableEq, Repr

/-- Whether a response is the error payload `{"erro": ...}`. -/
def Response.isErro : Response → Bool
  | .erro _ => true
  | .ok _ _ _ _ => false

/-- The successful results collected for one request: the selected units
(cap 10, archives scanned newest first, line 113 `reversed(archives)`)
run through the worker function, failures dropped at the pool boundary
(lines 129-133). The collection order of `as_completed` is arbitrary;
submission order is used here, which every property proved below is
insensitive to. -/
def detalhesOf (oracle : EngineOracle) (reader : PgnReader)
    (username : String) (archives : List (List RawGame)) : List GameResult :=
  (selectFromArchives username 10 archives.reverse []).filterMap
    (fun g => analyze_game_process_safe oracle reader g username)

/-- `analisar_usuario` (lines 102-145), with the archive service folded
into the input: `archives` holds, per archive locator returned by
`fetch_archives`, the game list that `fetch_games_from_archive` yields
for it. The second component instruments the number of engine sessions
constructed while serving the request (line 44, once per submitted
unit; zero on the early return of line 108). -/
def analisar_usuario (oracle : EngineOracle) (reader : PgnReader)
    (username : String) (archives : List (List RawGame)) : Response × Nat :=
  if archives.isEmpty then
    (Response.erro "Usuário não encontrado ou sem partidas.", 0)
  else
    let partidas := selectFromArchives username 10 archives.reverse []
    let detalhes := partidas.filterMap
      (fun g => analyze_game_process_safe oracle reader g username)
    let sessions := workerSessions partidas
    if detalhes.isEmpty then
      (Response.erro "Nenhuma partida encontrada para este usuário.", sessions)
    else
      (Response.ok username detalhes.length detalhes
        (avaliar_suspeita detalhes), sessions)

/-! Spec-side definitions, used only to state refinement-style claims;
these follow the wording of the specification, not the code. -/

/-- Modelled from the spec: `win_rate` = wins / total. -/
def spec_win_rate (jogos : List GameResult) : ℚ :=
  ((jogos.filter (fun j => j.resultado == "win")).length : ℚ) / jogos.length

/-- Modelled from the spec: `mean_accuracy` = average of all accuracies. -/
def spec_mean_accuracy (jogos : List GameResult) : ℚ :=
  (jogos.map (fun j => j.precisao)).sum / jogos.length

/-- Modelled from the spec: `high_accuracy_rate` = fraction of games with
accuracy strictly greater than 90. -/
def spec_high_accuracy_rate (jogos : List GameResult) : ℚ :=
  ((jogos.filter (fun j => decide (j.precisao > 90))).length : ℚ) / jogos.length

/-- Modelled from the spec: `score = 100 × (0.5 × mean_accuracy / 100 +
0.3 × win_rate + 0.2 × high_accuracy_rate)`. -/
def spec_score (jogos : List GameResult) : ℚ :=
  100 * (0.5 * spec_mean_accuracy jogos / 100 + 0.3 * spec_win_rate jogos
    + 0.2 * spec_high_accuracy_rate jogos)

/-- Moves of a game attributable to the target player, given the colour
the code attributed: with alternation from white, the moves at even
indices are white moves and those at odd indices are black moves. -/
def userMoveCount (user_color : String) (moves : List String) : Nat :=
  (List.range moves.length).countP
    (fun i => if user_color == "white" then i % 2 == 0 else i % 2 == 1)

/-- The mainline move list the analysis replays for a record: the parsed
move text when present and non-empty, `[]` otherwise (lines 50, 54). -/
def gameMoves (reader : PgnReader) (game : RawGame) : List String :=
  if game.pgn.getD "" ≠ "" then (reader (game.pgn.getD "")).getD [] else []

/-- Moves of a record attributable to the target player under the
attribution the code itself performs (lines 46-48). -/
def attributableMoves (reader : PgnReader) (game : RawGame)
    (username : String) : Nat :=
  match game.white, game.black with
  | some w, some b =>
      userMoveCount (userColorOf w b username) (gameMoves reader game)
  | _, _ => 0

/-! Concrete instances used to evaluate the embedding at specific
inputs. -/

/-- An engine that prefers `e2e4` at the initial position and answers
nothing elsewhere. It is consistent with move legality: the reply at a
position reached by pushing a move is never that move itself. -/
def oracle1 : EngineOracle := fun b => if b.isEmpty then some "e2e4" else none

/-- An engine that never answers (also legality-consistent). -/
def oracleNone : EngineOracle := fun _ => none

/-- A PGN reading oracle that parses nothing. -/
def readerNone : PgnReader := fun _ => none

/-- White side entry of a record whose target player is `alice`. -/
def sideAliceLW : SideInfo := ⟨"alice", "win"⟩

/-- Black side entry of the same record. -/
def sideBobR : SideInfo := ⟨"bob", "resigned"⟩

/-- A record matching handle `alice` on the white side but carrying no
move text. -/
def gNoPgn : RawGame :=
  { white := some sideAliceLW, black := some sideBobR, pgn := none, url := "u1" }

/-- The result the analysis produces for `gNoPgn` and handle `alice`. -/
def rNoPgn : GameResult :=
  { oponente := "bob", resultado := "win", precisao := 0, url := "u1" }

/-- White side entry spelled `Alice`, with a capital letter. -/
def sideAliceW : SideInfo := ⟨"Alice", "win"⟩

/-- Black side entry `bob` with result `timeout`. -/
def sideBobB : SideInfo := ⟨"bob", "timeout"⟩

/-- A record whose white handle is `Alice`: it matches the requested
handle `alice` case-insensitively at selection (lines 119-120) but not
case-sensitively at attribution (lines 46-48). -/
def gAlice : RawGame :=
  { white := some sideAliceW, black := some sideBobB, pgn := none, url := "u2" }

/-- A record lacking the white side entry. -/
def gMissingSide : RawGame :=
  { white := none, black := some sideBobR, pgn := none, url := "u3" }

/-- A fully accurate won game, for concrete scorer inputs. -/
def rWin100 : GameResult :=
  { oponente := "opp", resultado := "win", precisao := 100, url := "url" }

/-- A fully inaccurate lost game, for concrete scorer inputs. -/
def rLose0 : GameResult :=
  { oponente := "opp2", resultado := "lose", precisao := 0, url := "url2" }

end ChessDetector

namespace ChessDetector

/-! Helper lemmas about the move comparator and the rounding. -/

theorem foldl_best_le_total (oracle : EngineOracle) (uc : String) :
    ∀ (moves : List String) (s : CompState), s.best ≤ s.total →
      (moves.foldl (compStep oracle uc) s).best ≤
        (moves.foldl (compStep oracle uc) s).total := by
  intro moves
  induction moves with
  | nil => intro s h; exact h
  | cons m rest ih =>
      intro s h
      apply ih
      unfold compStep
      dsimp only
      split
      · exact Nat.le_succ_of_le h
      · split
        · exact Nat.succ_le_succ h
        · exact Nat.le_succ_of_le h

theorem runComparator_best_le_total (oracle : EngineOracle) (uc : String)
    (moves : List String) :
    (runComparator oracle uc moves).best ≤ (runComparator oracle uc moves).total :=
  foldl_best_le_total oracle uc moves initComp (Nat.le_refl 0)

theorem round_nonneg_of_nonneg {q : ℚ} (h : 0 ≤ q) : 0 ≤ round q := by
  rw [round_eq]
  exact Int.le_floor.mpr (by push_cast; linarith)

theorem round_le_of_le {q : ℚ} (h : q ≤ 10000) : round q ≤ 10000 := by
  rw [round_eq]
  have h1 : ⌊q + 1 / 2⌋ < 10001 := Int.floor_lt.mpr (by push_cast; linarith)
  omega

theorem round2_nonneg {q : ℚ} (h : 0 ≤ q) : 0 ≤ round2 q := by
  unfold round2
  have h0 : (0 : ℤ) ≤ round (q * 100) := round_nonneg_of_nonneg (by positivity)
  have h1 : (0 : ℚ) ≤ (round (q * 100) : ℚ) := by exact_mod_cast h0
  linarith

theorem round2_le_100 {q : ℚ} (h : q ≤ 100) : round2 q ≤ 100 := by
  unfold round2
  have h0 : round (q * 100) ≤ 10000 := round_le_of_le (by linarith)
  have h1 : ((round (q * 100)) : ℚ) ≤ 10000 := by exact_mod_cast h0
  linarith

theorem precisaoOf_nonneg (b t : Nat) : 0 ≤ precisaoOf b t := by
  unfold precisaoOf
  split
  · exact round2_nonneg (by positivity)
  · exact le_refl 0

theorem precisaoOf_le_100 (b t : Nat) (h : b ≤ t) : precisaoOf b t ≤ 100 := by
  unfold precisaoOf
  split
  · next ht =>
      apply round2_le_100
      have ht2 : (0 : ℚ) < (t : ℚ) := by exact_mod_cast Nat.pos_of_ne_zero ht
      have hb : (b : ℚ) ≤ (t : ℚ) := by exact_mod_cast h
      have hd : (b : ℚ) / (t : ℚ) ≤ 1 := (div_le_one ht2).mpr hb
      linarith
  · norm_num

theorem precisaoOf_zero_best (t : Nat) : precisaoOf 0 t = 0 := by
  unfold precisaoOf round2
  split
  · norm_num
  · rfl

theorem userMoveCount_white_zero {moves : List String}
    (h : userMoveCount "white" moves = 0) : moves = [] := by
  unfold userMoveCount at h
  rw [List.countP_eq_zero] at h
  by_contra hne
  have hlen : 0 < moves.length := List.length_pos.mpr hne
  have h0 := h 0 (List.mem_range.mpr hlen)
  simp at h0

theorem userMoveCount_black_le_one {moves : List String}
    (h : userMoveCount "black" moves = 0) : moves.length ≤ 1 := by
  unfold userMoveCount at h
  rw [List.countP_eq_zero] at h
  by_contra hgt
  push_neg at hgt
  have h1 := h 1 (List.mem_range.mpr hgt)
  simp at h1

theorem runComparator_single_black (oracle : EngineOracle) (m : String)
    (hleg : oracle [m] ≠ some m) :
    runComparator oracle "black" [m] = ⟨[m], 1, 0, [[m]]⟩ := by
  unfold runComparator initComp
  simp only [List.foldl_cons, List.foldl_nil]
  unfold compStep
  simp [Board.turn, chessWHITE, chessBLACK, beq_iff_eq, hleg]

end ChessDetector

namespace ChessDetector

/-- C1. The claim states that the engine is queried at the position
before each target-player move, that `moves considered` counts exactly
the target-player moves, and that `moves matched` is incremented exactly
on agreement with the engine. The code does the opposite: line 60 tests
the turn after pushing the move, so the loop skips the engine entirely
for the target player's own moves, queries it only after opponent moves
(comparing the reply with the opponent's just-played move), and counts
every move of both sides in `total_moves`. Evaluated here: with white
target player, a one-move game `e2e4`, and an engine that prefers `e2e4`
at the initial position, the claim demands considered 1, matched 1,
accuracy 100; the code queries the engine at no position, matches
nothing, counts 1, and reports accuracy 0. In the two-move game the code
counts both moves although the target player made only one, and queries
exactly at the position following the opponent reply. -/
theorem C1_move_comparator_inverted :
    oracle1 [] = some "e2e4" ∧
    (∀ (b : Board) (m : String), oracle1 (b ++ [m]) ≠ some m) ∧
    runComparator oracle1 "white" ["e2e4"] =
      { board := ["e2e4"], total := 1, best := 0, queried := [] } ∧
    precisaoOf (runComparator oracle1 "white" ["e2e4"]).best
      (runComparator oracle1 "white" ["e2e4"]).total = 0 ∧
    userMoveCount "white" ["e2e4"] = 1 ∧
    runComparator oracle1 "white" ["e2e4", "e7e5"] =
      { board := ["e2e4", "e7e5"], total := 2, best := 0,
        queried := [["e2e4", "e7e5"]] } ∧
    userMoveCount "white" ["e2e4", "e7e5"] = 1 := by
  refine ⟨by decide, ?_, by decide, ?_, by decide, by decide, by decide⟩
  · intro b m
    simp [oracle1]
  · have h : runComparator oracle1 "white" ["e2e4"] =
        { board := ["e2e4"], total := 1, best := 0, queried := [] } := by decide
    rw [h]
    exact precisaoOf_zero_best 1

/-- C2. For a non-empty batch, the score the code computes at lines
92-96 equals the specified `100 × (0.5 × mean_accuracy/100 + 0.3 ×
win_rate + 0.2 × high_accuracy_rate)`, and the suspicious flag returned
at line 99 holds exactly when that score is at least 75. -/
theorem C2_scorer_formula (jogos : List GameResult) (h : jogos ≠ []) :
    scoreOf jogos = spec_score jogos ∧
    (avaliar_suspeita jogos = true ↔ spec_score jogos ≥ 75) := by
  have heq : scoreOf jogos = spec_score jogos := by
    unfold scoreOf spec_score spec_mean_accuracy spec_win_rate spec_high_accuracy_rate
    ring
  refine ⟨heq, ?_⟩
  have hlen : (jogos.length == 0) = false := by
    simp [List.length_eq_zero, h]
  unfold avaliar_suspeita
  rw [hlen]
  simp [heq]

theorem C2_scorer_formula_witness :
    scoreOf [rWin100] = spec_score [rWin100] ∧
    (avaliar_suspeita [rWin100] = true ↔ spec_score [rWin100] ≥ 75) :=
  C2_scorer_formula [rWin100] (by simp)

/-- C3. For every record the analysis completes on (any engine whose
reply at a position is never the move that was just pushed there, which
move legality guarantees for a real engine), the reported accuracy lies
in [0, 100], and it is 0 whenever the record has no move attributable to
the target player; the `total_moves` guard of line 67 means no division
by zero occurs for any input. -/
theorem C3_accuracy_bounds (oracle : EngineOracle) (reader : PgnReader)
    (game : RawGame) (username : String) (r : GameResult)
    (hleg : ∀ (b : Board) (m : String), oracle (b ++ [m]) ≠ some m)
    (hr : analyze_game_process_safe oracle reader game username = some r) :
    0 ≤ r.precisao ∧ r.precisao ≤ 100 ∧
      (attributableMoves reader game username = 0 → r.precisao = 0) := by
  cases hw : game.white with
  | none => rw [analyze_game_process_safe, hw] at hr; simp at hr
  | some w =>
  cases hb : game.black with
  | none => rw [analyze_game_process_safe, hw, hb] at hr; simp at hr
  | some b =>
  rw [analyze_game_process_safe, hw, hb] at hr
  simp only [Option.bind_eq_bind, Option.some_bind] at hr
  split at hr
  · next hpgn =>
    cases hread : reader (game.pgn.getD "") with
    | none => rw [hread] at hr; simp at hr
    | some moves =>
        rw [hread] at hr
        rw [Option.some.injEq] at hr
        subst hr
        refine ⟨precisaoOf_nonneg _ _,
          precisaoOf_le_100 _ _ (runComparator_best_le_total oracle _ moves), ?_⟩
        intro h0
        simp only [attributableMoves, hw, hb] at h0
        have hg : gameMoves reader game = moves := by
          unfold gameMoves
          rw [if_pos hpgn, hread]
          rfl
        rw [hg] at h0
        dsimp only
        by_cases hwu : w.username == username
        · have huc : userColorOf w b username = "white" := by
            unfold userColorOf; rw [if_pos hwu]
          rw [huc] at h0 ⊢
          rw [userMoveCount_white_zero h0]
          exact precisaoOf_zero_best 0
        · have huc : userColorOf w b username = "black" := by
            unfold userColorOf; rw [if_neg hwu]
          rw [huc] at h0 ⊢
          have hlen := userMoveCount_black_le_one h0
          cases moves with
          | nil => exact precisaoOf_zero_best 0
          | cons m t =>
              have ht : t = [] := by
                simp at hlen
                exact hlen
              subst ht
              have hleg1 : oracle [m] ≠ some m := by simpa using hleg [] m
              rw [runComparator_single_black oracle m hleg1]
              exact precisaoOf_zero_best 1
  · next hpgn =>
    rw [Option.some.injEq] at hr
    subst hr
    refine ⟨precisaoOf_nonneg _ _, precisaoOf_le_100 _ _ (le_refl _), ?_⟩
    intro _
    exact precisaoOf_zero_best 0

theorem C3_accuracy_bounds_witness :
    0 ≤ rNoPgn.precisao ∧ rNoPgn.precisao ≤ 100 ∧
      (attributableMoves readerNone gNoPgn "alice" = 0 → rNoPgn.precisao = 0) :=
  C3_accuracy_bounds oracleNone readerNone gNoPgn "alice" rNoPgn
    (fun b m => by simp [oracleNone]) (by decide)

end ChessDetector

namespace ChessDetector

/-- C4. The claim states that changing only the letter case of the
requested handle never changes the side, opponent, or outcome attributed
to the target player. Selection (lines 119-120) indeed compares
lower-cased handles, so `gAlice` is selected for both spellings; but the
attribution of lines 46-48 compares handles case-sensitively (falling
back to the black side when nothing matches exactly), so the handle
`Alice` is attributed white with result `win` while the handle `alice`
is attributed black with result `timeout` on the very same record. -/
theorem C4_attribution_case_sensitive :
    matchesUser "Alice" gAlice = true ∧
    matchesUser "alice" gAlice = true ∧
    userColorOf sideAliceW sideBobB "Alice" = "white" ∧
    userColorOf sideAliceW sideBobB "alice" = "black" ∧
    resultOf sideAliceW sideBobB "Alice" = "win" ∧
    resultOf sideAliceW sideBobB "alice" = "timeout" ∧
    (analyze_game_process_safe oracleNone readerNone gAlice "Alice").map
      (fun r => r.resultado) = some "win" ∧
    (analyze_game_process_safe oracleNone readerNone gAlice "alice").map
      (fun r => r.resultado) = some "timeout" := by decide

/-- C5 counterexample. The claim states that a record matching the
target handle but lacking move text yields no WorkUnit and no
GameResult. On the code it does both: `gNoPgn` matches `alice` and has
no `pgn`, selection admits it (no move-text check exists at lines
115-121), the worker analyzes it (line 54 merely skips the replay), and
the endpoint reports one analyzed game with accuracy 0. -/
theorem C5_no_pgn_counterexample :
    matchesUser "alice" gNoPgn = true ∧ gNoPgn.pgn = none ∧
    analisar_usuario oracleNone readerNone "alice" [[gNoPgn]] =
      (Response.ok "alice" 1 [rNoPgn] false, 1) := by
  refine ⟨by decide, rfl, ?_⟩
  have hana : analyze_game_process_safe oracleNone readerNone gNoPgn "alice" =
      some rNoPgn := by
    decide
  have hsel : selectFromArchives "alice" 10 [[gNoPgn]] [] = [gNoPgn] := by
    decide
  have havg : avaliar_suspeita [rNoPgn] = false := by
    simp +decide [avaliar_suspeita, scoreOf, rNoPgn]
    norm_num
  simp [analisar_usuario, hsel, hana, havg, workerSessions, sessionsPerCall]

theorem selectFromGames_acc_prefix (u : String) (m : Nat) :
    ∀ (games acc : List RawGame), ∃ l, selectFromGames u m games acc = acc ++ l := by
  intro games
  induction games with
  | nil => intro acc; exact ⟨[], by simp [selectFromGames]⟩
  | cons g rest ih =>
      intro acc
      unfold selectFromGames
      split
      · exact ⟨[], by simp⟩
      · split
        · obtain ⟨l, hl⟩ := ih (acc ++ [g])
          exact ⟨g :: l, by rw [hl]; simp⟩
        · exact ih acc

/-- C5 amended. A raw game record that matches the target handle but
lacks move text is not skipped: it becomes a WorkUnit (selection admits
it whenever the cap is not yet reached) and its analysis yields a
GameResult with accuracy 0, the engine never being consulted; the batch
continues. -/
theorem C5_no_pgn_amended (oracle : EngineOracle) (reader : PgnReader)
    (username : String) (g : RawGame) (w b : SideInfo)
    (rest partidas : List RawGame) (max_partidas : Nat)
    (hw : g.white = some w) (hb : g.black = some b) (hp : g.pgn = none)
    (hm : matchesUser username g = true)
    (hlen : partidas.length < max_partidas) :
    g ∈ selectFromGames username max_partidas (g :: rest) partidas ∧
    analyze_game_process_safe oracle reader g username =
      some { oponente := opponentOf w b username,
             resultado := resultOf w b username, precisao := 0, url := g.url } := by
  constructor
  · have hboth : hasBothSides g = true := by simp [hasBothSides, hw, hb]
    unfold selectFromGames
    rw [if_neg (by omega : ¬ partidas.length ≥ max_partidas)]
    rw [hboth, hm]
    simp only [Bool.and_self, if_true]
    obtain ⟨l, hl⟩ := selectFromGames_acc_prefix username max_partidas rest (partidas ++ [g])
    rw [hl]
    simp
  · rw [analyze_game_process_safe, hw, hb]
    simp [hp, precisaoOf, initComp]

theorem C5_no_pgn_amended_witness :
    gNoPgn ∈ selectFromGames "alice" 10 [gNoPgn] [] ∧
    analyze_game_process_safe oracleNone readerNone gNoPgn "alice" =
      some { oponente := opponentOf sideAliceLW sideBobR "alice",
             resultado := resultOf sideAliceLW sideBobR "alice",
             precisao := 0, url := gNoPgn.url } :=
  C5_no_pgn_amended oracleNone readerNone "alice" gNoPgn sideAliceLW sideBobR
    [] [] 10 rfl rfl rfl (by decide) (by decide)

/-- C6 counterexample. The claim states that a worker creates exactly
one engine session and reuses it for every WorkUnit it processes. Line
44 constructs a fresh Stockfish instance inside
`analyze_game_process_safe`, which the pool invokes once per submitted
game, so a worker handed two units constructs two sessions, not one. -/
theorem C6_sessions_counterexample :
    workerSessions [gNoPgn, gAlice] = 2 ∧ workerSessions [gNoPgn, gAlice] ≠ 1 := by
  decide

/-- C6 amended. Engine startup cost is paid once per game, not once per
worker: a worker processing a list of units constructs exactly one engine
session per unit (line 44), and none at worker start. -/
theorem C6_sessions_amended (units : List RawGame) :
    workerSessions units = units.length := by
  unfold workerSessions sessionsPerCall
  induction units with
  | nil => rfl
  | cons g t ih => simp_all; omega

end ChessDetector

namespace ChessDetector

theorem collect_length_add_failures (outcomes : List (Option GameResult)) :
    (collect_results outcomes).length
      + outcomes.countP (fun o => o.isNone) = outcomes.length := by
  induction outcomes with
  | nil => rfl
  | cons o t ih =>
      cases o with
      | none =>
          simp only [collect_results, List.filterMap_cons_none, List.countP_cons,
            List.length_cons] at *
          simp
          omega
      | some r =>
          simp only [collect_results, List.filterMap_cons_some, List.countP_cons,
            List.length_cons] at *
          simp
          omega

/-- C7. When exactly one of N submitted units raises (its outcome is
`none`) and the remaining N-1 complete, the collection loop of lines
129-133 yields exactly N-1 GameResults: the failure is swallowed inside
the per-future `try`, so neither the sibling results nor the batch are
lost. -/
theorem C7_failure_isolation (outcomes : List (Option GameResult))
    (h : outcomes.countP (fun o => o.isNone) = 1) :
    (collect_results outcomes).length = outcomes.length - 1 := by
  have hlen := collect_length_add_failures outcomes
  omega

theorem C7_failure_isolation_witness :
    (collect_results [some rWin100, none]).length = [some rWin100, none].length - 1 :=
  C7_failure_isolation [some rWin100, none] (by decide)

/-- C8. The endpoint returns the error payload exactly when the archive
listing is empty (line 107) or no game was successfully analyzed (line
135); with an empty listing it returns before the pool is created, so
zero engine sessions are started; otherwise it returns the success
payload carrying the handle, the number of collected GameResults, the
result list itself, and the suspicion flag (lines 140-145). -/
theorem C8_endpoint_contract (oracle : EngineOracle) (reader : PgnReader)
    (username : String) (archives : List (List RawGame)) :
    (archives = [] →
      analisar_usuario oracle reader username archives =
        (Response.erro "Usuário não encontrado ou sem partidas.", 0)) ∧
    ((analisar_usuario oracle reader username archives).1.isErro = true ↔
      (archives = [] ∨ detalhesOf oracle reader username archives = [])) ∧
    (archives ≠ [] → detalhesOf oracle reader username archives ≠ [] →
      (analisar_usuario oracle reader username archives).1 =
        Response.ok username (detalhesOf oracle reader username archives).length
          (detalhesOf oracle reader username archives)
          (avaliar_suspeita (detalhesOf oracle reader username archives))) := by
  by_cases ha : archives = []
  · subst ha
    refine ⟨fun _ => rfl, ?_, fun hne _ => absurd rfl hne⟩
    simp [analisar_usuario, Response.isErro]
  · have hne : archives.isEmpty = false := by
      cases archives with
      | nil => exact absurd rfl ha
      | cons a t => rfl
    have hbody : analisar_usuario oracle reader username archives =
        if (detalhesOf oracle reader username archives).isEmpty then
          (Response.erro "Nenhuma partida encontrada para este usuário.",
            workerSessions (selectFromArchives username 10 archives.reverse []))
        else
          (Response.ok username (detalhesOf oracle reader username archives).length
            (detalhesOf oracle reader username archives)
            (avaliar_suspeita (detalhesOf oracle reader username archives)),
            workerSessions (selectFromArchives username 10 archives.reverse [])) := by
      unfold analisar_usuario detalhesOf
      rw [hne]
      simp only [Bool.false_eq_true, if_false]
    refine ⟨fun h => absurd h ha, ?_, ?_⟩
    · rw [hbody]
      by_cases hD : (detalhesOf oracle reader username archives).isEmpty = true
      · rw [if_pos hD]
        simp only [Response.isErro]
        simp only [List.isEmpty_iff] at hD
        simp [hD]
      · rw [if_neg (by simp [hD])]
        simp only [Response.isErro]
        simp only [List.isEmpty_iff] at hD
        simp [hD, ha]
    · intro _ hDne
      rw [hbody]
      rw [if_neg (by simp [List.isEmpty_iff, hDne])]

theorem C8_endpoint_contract_witness :
    analisar_usuario oracleNone readerNone "alice" [] =
      (Response.erro "Usuário não encontrado ou sem partidas.", 0) :=
  (C8_endpoint_contract oracleNone readerNone "alice" []).1 rfl

/-- C9. The suspicion score and the suspicious flag are invariant under
any permutation of the GameResult batch: every aggregate the scorer uses
(length, win count, accuracy sum, high-accuracy count) is permutation
invariant, so aggregation is deterministic whatever order the pool
collected the results in. -/
theorem C9_scorer_perm_invariant (l l2 : List GameResult) (h : l.Perm l2) :
    scoreOf l = scoreOf l2 ∧ avaliar_suspeita l = avaliar_suspeita l2 := by
  have hlen : l.length = l2.length := h.length_eq
  have hsum : (l.map (fun j => j.precisao)).sum = (l2.map (fun j => j.precisao)).sum :=
    (h.map (fun j => j.precisao)).sum_eq
  have hwin : (l.filter (fun j => j.resultado == "win")).length =
      (l2.filter (fun j => j.resultado == "win")).length :=
    (h.filter (fun j => j.resultado == "win")).length_eq
  have hacc : (l.filter (fun j => decide (j.precisao > 90))).length =
      (l2.filter (fun j => decide (j.precisao > 90))).length :=
    (h.filter (fun j => decide (j.precisao > 90))).length_eq
  have hs : scoreOf l = scoreOf l2 := by
    unfold scoreOf
    rw [hlen, hsum, hwin, hacc]
  refine ⟨hs, ?_⟩
  unfold avaliar_suspeita
  rw [hlen, hs]

theorem C9_scorer_perm_invariant_witness :
    scoreOf [rWin100, rLose0] = scoreOf [rLose0, rWin100] ∧
    avaliar_suspeita [rWin100, rLose0] = avaliar_suspeita [rLose0, rWin100] :=
  C9_scorer_perm_invariant [rWin100, rLose0] [rLose0, rWin100]
    (List.Perm.swap rLose0 rWin100 [])

theorem selectFromGames_nil (u : String) (m : Nat) (acc : List RawGame) :
    selectFromGames u m [] acc = acc := rfl

theorem selectFromGames_cons (u : String) (m : Nat) (g : RawGame)
    (rest acc : List RawGame) :
    selectFromGames u m (g :: rest) acc =
      if acc.length ≥ m then acc
      else if hasBothSides g && matchesUser u g then
        selectFromGames u m rest (acc ++ [g])
      else selectFromGames u m rest acc := rfl

theorem selectFromArchives_cons (u : String) (m : Nat) (gs : List RawGame)
    (rest : List (List RawGame)) (acc : List RawGame) :
    selectFromArchives u m (gs :: rest) acc =
      if (selectFromGames u m gs acc).length ≥ m then selectFromGames u m gs acc
      else selectFromArchives u m rest (selectFromGames u m gs acc) := rfl

theorem selectFromGames_of_ge (u : String) (m : Nat) (games acc : List RawGame)
    (h : acc.length ≥ m) : selectFromGames u m games acc = acc := by
  cases games with
  | nil => rfl
  | cons g rest => rw [selectFromGames_cons, if_pos h]

theorem selectFromGames_skip (username : String) (max_partidas : Nat)
    (g : RawGame) (hg : g.white = none ∨ g.black = none) :
    ∀ (l1 l2 acc : List RawGame),
      selectFromGames username max_partidas (l1 ++ g :: l2) acc =
        selectFromGames username max_partidas (l1 ++ l2) acc := by
  have hboth : hasBothSides g = false := by
    cases hg with
    | inl h => simp [hasBothSides, h]
    | inr h => simp [hasBothSides, h]
  intro l1
  induction l1 with
  | nil =>
      intro l2 acc
      simp only [List.nil_append]
      by_cases hge : acc.length ≥ max_partidas
      · rw [selectFromGames_of_ge _ _ _ _ hge, selectFromGames_of_ge _ _ _ _ hge]
      · rw [selectFromGames_cons, if_neg hge, hboth]
        simp only [Bool.false_and, Bool.false_eq_true, if_false]
  | cons a t ih =>
      intro l2 acc
      simp only [List.cons_append, selectFromGames_cons]
      by_cases hge : acc.length ≥ max_partidas
      · rw [if_pos hge, if_pos hge]
      · rw [if_neg hge, if_neg hge]
        by_cases hc : (hasBothSides a && matchesUser username a) = true
        · rw [if_pos hc, if_pos hc]
          exact ih l2 (acc ++ [a])
        · rw [if_neg hc, if_neg hc]
          exact ih l2 acc

theorem selectFromArchives_congr (u : String) (m : Nat) (X Y : List RawGame)
    (hXY : ∀ acc, selectFromGames u m X acc = selectFromGames u m Y acc) :
    ∀ (A B : List (List RawGame)) (acc : List RawGame),
      selectFromArchives u m (A ++ X :: B) acc =
        selectFromArchives u m (A ++ Y :: B) acc := by
  intro A
  induction A with
  | nil =>
      intro B acc
      simp only [List.nil_append, selectFromArchives_cons]
      rw [hXY acc]
  | cons a t ih =>
      intro B acc
      simp only [List.cons_append, selectFromArchives_cons]
      rw [ih]

/-- C10. A raw record lacking the `white` or the `black` side entry is
silently skipped by line 118: work-unit selection over any surrounding
games produces exactly what it would produce without the record, and the
whole endpoint response (payload and engine-session count alike) is
unchanged by its presence — it never becomes a WorkUnit, contributes no
GameResult, and raises no error for the batch. -/
theorem C10_missing_side_skipped (username : String) (g : RawGame)
    (hg : g.white = none ∨ g.black = none) :
    (∀ (max_partidas : Nat) (l1 l2 acc : List RawGame),
      selectFromGames username max_partidas (l1 ++ g :: l2) acc =
        selectFromGames username max_partidas (l1 ++ l2) acc) ∧
    (∀ (oracle : EngineOracle) (reader : PgnReader)
      (as1 as2 : List (List RawGame)) (l1 l2 : List RawGame),
      analisar_usuario oracle reader username (as1 ++ (l1 ++ g :: l2) :: as2) =
        analisar_usuario oracle reader username (as1 ++ (l1 ++ l2) :: as2)) := by
  refine ⟨fun m => selectFromGames_skip username m g hg, ?_⟩
  intro oracle reader as1 as2 l1 l2
  have h1 : (as1 ++ (l1 ++ g :: l2) :: as2).isEmpty = false := by
    cases as1 <;> simp
  have h2 : (as1 ++ (l1 ++ l2) :: as2).isEmpty = false := by
    cases as1 <;> simp
  have hrev1 : (as1 ++ (l1 ++ g :: l2) :: as2).reverse =
      as2.reverse ++ (l1 ++ g :: l2) :: as1.reverse := by simp
  have hrev2 : (as1 ++ (l1 ++ l2) :: as2).reverse =
      as2.reverse ++ (l1 ++ l2) :: as1.reverse := by simp
  have hsel : selectFromArchives username 10 (as1 ++ (l1 ++ g :: l2) :: as2).reverse [] =
      selectFromArchives username 10 (as1 ++ (l1 ++ l2) :: as2).reverse [] := by
    rw [hrev1, hrev2]
    exact selectFromArchives_congr username 10 _ _
      (selectFromGames_skip username 10 g hg l1 l2) as2.reverse as1.reverse []
  unfold analisar_usuario
  rw [h1, h2]
  simp only [Bool.false_eq_true, if_false]
  rw [hsel]

theorem C10_missing_side_skipped_witness :
    selectFromGames "alice" 10 [gMissingSide] [] = ([] : List RawGame) :=
  (C10_missing_side_skipped "alice" gMissingSide (Or.inl rfl)).1 10 [] [] []

end ChessDetector
